import Mathlib

/-
Verification development for the LinkMaq/FileManager repository
(src/app/main.py).  The Python code is shallowly embedded: strings are
Lean `String`s, filesystem paths are lists of path components, byte
contents are `List Nat`, and every FastAPI endpoint of the resumable
upload protocol becomes a pure function from an explicit `Store` state
to a new state together with an `Except`-style HTTP result.
POSIX path semantics are assumed (the container deployment target).
-/

namespace FileManager

/-! ## Association lists (model of dict-like state and of directories) -/

def alookup {κ α : Type} [BEq κ] : List (κ × α) → κ → Option α
  | [], _ => none
  | e :: rest, k => if e.1 == k then some e.2 else alookup rest k

def ainsert {κ α : Type} [BEq κ] : List (κ × α) → κ → α → List (κ × α)
  | [], k, v => [(k, v)]
  | e :: rest, k, v => if e.1 == k then (k, v) :: rest else e :: ainsert rest k v

def aerase {κ α : Type} [BEq κ] (l : List (κ × α)) (k : κ) : List (κ × α) :=
  l.filter (fun e => e.1 != k)

/-! ## String helpers (models of the `str`/`pathlib` operations the code uses) -/

/-- Split a character list on a separator character; mirrors Python
`str.split(sep)` (so the result is never empty and pieces never contain
the separator). -/
def splitOnChar (sep : Char) : List Char → List (List Char)
  | [] => [[]]
  | c :: rest =>
    if c = sep then [] :: splitOnChar sep rest
    else
      match splitOnChar sep rest with
      | [] => [[c]]
      | piece :: more => (c :: piece) :: more

/-- Model of `str.lstrip("/")`: drop leading slashes. -/
def lstripSlash (s : String) : String :=
  String.mk (s.toList.dropWhile (fun c => c == '/'))

/-- Path components of a relative path string: split on `/` and drop empty
segments, exactly as `pathlib` normalizes `a//b` and trailing slashes.
`.` and `..` segments are kept; canonicalization handles them. -/
def splitPath (s : String) : List String :=
  ((splitOnChar '/' s.toList).map String.mk).filter (fun seg => seg != "")

/-- Render an absolute component list as the usual slash-joined string
(only used to contrast string-prefix matching with structural ancestry). -/
def pathString (p : List String) : String :=
  String.mk (p.foldl (fun acc seg => acc ++ '/' :: seg.toList) [])

/-- Plain string-prefix test (the check `resolve_safe_path` must NOT use). -/
def strStartOf (a b : String) : Bool :=
  a.toList.isPrefixOf b.toList

/-- Model of `re.sub(r"[\x00-\x1f\x7f]+", "", n)`: remove control characters. -/
def stripControlChars (l : List Char) : List Char :=
  l.filter (fun c => !(c.toNat < 32 || c.toNat == 127))

/-- Model of `PurePosixPath(s).name`: the last component after dropping
empty and `.` segments (so the name of `.` is empty while the name of
`..` is `..` itself). -/
def lastComponent (l : List Char) : List Char :=
  ((((splitOnChar '/' l).filter
      (fun seg => !seg.isEmpty && seg != ['.']))).getLast?).getD []

/-- Embedding of `safe_filename` (src/app/main.py lines 56-64): keep only the
final path component, then strip control characters. -/
def safe_filename (name : String) : String :=
  if name = "" then ""
  else String.mk (stripControlChars (lastComponent name.toList))

/-! ## UUID validation (model of `uuid.UUID(s)` as used by `validate_upload_id`) -/

def isHexDigitC (c : Char) : Bool :=
  (decide (48 ≤ c.toNat) && decide (c.toNat ≤ 57)) ||
  (decide (97 ≤ c.toNat) && decide (c.toNat ≤ 102)) ||
  (decide (65 ≤ c.toNat) && decide (c.toNat ≤ 70))

/-- Remove every occurrence of `pat` from the list (fuel-based so the
definition is structural and kernel-reducible); model of
`str.replace(pat, "")`. -/
def removePatFuel (pat : List Char) : Nat → List Char → List Char
  | 0, l => l
  | _ + 1, [] => []
  | n + 1, c :: rest =>
    if pat.isPrefixOf (c :: rest) && !pat.isEmpty then
      removePatFuel pat n (List.drop (pat.length - 1) rest)
    else c :: removePatFuel pat n rest

def removePat (pat : List Char) (l : List Char) : List Char :=
  removePatFuel pat l.length l

/-- Model of the Python strip of brace characters from both ends of the
id string (the braces are written by code point, 123 and 125). -/
def stripBraceEnds (l : List Char) : List Char :=
  ((l.dropWhile (fun c => c.toNat == 123 || c.toNat == 125)).reverse.dropWhile
      (fun c => c.toNat == 123 || c.toNat == 125)).reverse

/-- Reinsert hyphens in 8-4-4-4-12 positions, as `str(uuid.UUID(...))` does. -/
def hyphenate (l : List Char) : List Char :=
  l.take 8 ++ '-' :: (l.drop 8).take 4 ++ '-' :: (l.drop 12).take 4 ++
    '-' :: (l.drop 16).take 4 ++ '-' :: l.drop 20

/-- Model of `str(uuid.UUID(s))`: strip `urn:` / `uuid:` markers, braces and
hyphens, require exactly 32 hex digits, then render the canonical lowercase
hyphenated form.  (The sign/underscore laxity of Python `int(h, 16)` is not
modelled; no claim depends on it.) -/
def uuidNormalize (s : String) : Option String :=
  let h := removePat "urn:".toList s.toList
  let h := removePat "uuid:".toList h
  let h := stripBraceEnds h
  let h := h.filter (fun c => c != '-')
  if h.length == 32 && h.all isHexDigitC then
    some (String.mk (hyphenate (h.map Char.toLower)))
  else none

/-! ## Filesystem and path canonicalization

The filesystem is a finite map from absolute component lists to entries.
`Path.resolve()` (POSIX `realpath(strict=False)`) is modelled by
processing components left to right, dropping `.`, popping on `..`, and
restarting from the (absolute) target whenever a component is a symbolic
link.  A link budget bounds symlink chasing; on exhaustion the remaining
path is returned as far as it was resolved, matching the non-strict mode
which "resolves as far as possible". -/

inductive FsEntry : Type
  | file
  | dir
  | symlink (target : List String)
  deriving DecidableEq, Repr

abbrev Fs := List (List String × FsEntry)

def fsLookup (fs : Fs) (p : List String) : Option FsEntry :=
  alookup fs p

def linkTarget (fs : Fs) (p : List String) : Option (List String) :=
  match fsLookup fs p with
  | some (.symlink t) => some t
  | _ => none

def isSymlinkEntry : FsEntry → Bool
  | .symlink _ => true
  | _ => false

inductive CanonStep : Type
  | done (p : List String)
  | jump (next : List String)
  deriving DecidableEq, Repr

/-- One pass over the remaining components; stops with `.jump` when a
symbolic link is hit, restarting resolution from its absolute target. -/
def canonSegs (fs : Fs) : List String → List String → CanonStep
  | acc, [] => .done acc
  | acc, seg :: rest =>
    if seg = "." then canonSegs fs acc rest
    else if seg = ".." then canonSegs fs acc.dropLast rest
    else
      match linkTarget fs (acc ++ [seg]) with
      | none => canonSegs fs (acc ++ [seg]) rest
      | some t => .jump (t ++ rest)

def canonLoop (fs : Fs) : Nat → List String → List String
  | 0, p => p
  | fuel + 1, p =>
    match canonSegs fs [] p with
    | .done r => r
    | .jump q => canonLoop fs fuel q

/-- Symlink-chase budget, as in POSIX MAXSYMLINKS and CPython realpath. -/
def MAXLINKS : Nat := 40

/-- The canonicalized absolute path `(ROOT_DIR / safe_rel).resolve()`
computes for a client-supplied relative path (`resolve_safe_path`
lines 44-47: empty input means `.`, leading slashes stripped). -/
def canonicalOf (fs : Fs) (root : List String) (relativePath : String) : List String :=
  canonLoop fs MAXLINKS
    (root ++ splitPath (lstripSlash (if relativePath = "" then "." else relativePath)))

/-- HTTP error result: `HTTPException(status_code=..., detail=...)`. -/
structure HErr : Type where
  status : Nat
  detail : String
  deriving DecidableEq, Repr

/-- Structural ancestry: `p` is `root` itself or a descendant of `root`
(component-wise), i.e. the components of `root` start the components of
`p`.  This is what `Path.relative_to` checks. -/
def isAncestorOrSelf (root p : List String) : Prop :=
  root <+: p

instance (root p : List String) : Decidable (isAncestorOrSelf root p) :=
  inferInstanceAs (Decidable (root <+: p))

/-- Embedding of `resolve_safe_path` (src/app/main.py lines 43-53):
canonicalize `ROOT / rel` and require the result to stay under the root
via `Path.relative_to`, else HTTP 400 "Invalid path". -/
def resolveSafePath (fs : Fs) (root : List String) (relativePath : String) :
    Except HErr (List String) :=
  let absPath := canonicalOf fs root relativePath
  if root.isPrefixOf absPath then .ok absPath
  else .error ⟨400, "Invalid path"⟩

/-! ## Upload session store and endpoint state

`Store` carries the static filesystem (directories/symlinks used by the
sandbox checks), the process root, the parsed metadata records
(`.uploads/<id>.json`), the staging-file contents (`.uploads/<id>.part`,
keyed by id), the set of ids whose staging path is an existing symbolic
link, and the finalized destination files. -/

/-- Parsed metadata record written by `api_upload_init` (lines 244-249). -/
structure UploadMeta : Type where
  uploadId : String
  path : String
  filename : String
  totalSize : Int
  deriving DecidableEq, Repr

structure Store : Type where
  fs : Fs
  root : List String
  metas : List (String × UploadMeta)
  parts : List (String × List Nat)
  partLinks : List String
  files : List (List String × List Nat)
  deriving DecidableEq, Repr

/-- Maximum supported upload size, 20 GiB (line 40). -/
def MAX_UPLOAD_BYTES : Int := 20 * 1024 ^ 3

/-- Embedding of `validate_upload_id` (lines 67-74). -/
def validate_upload_id (uploadId : String) : Except HErr String :=
  match uuidNormalize uploadId with
  | some u => .ok u
  | none => .error ⟨400, "Invalid uploadId"⟩

def partIsLink (st : Store) (uid : String) : Bool :=
  st.partLinks.contains uid

/-- `part_path.exists()`: a regular staging file or an (existing) symlink. -/
def partExists (st : Store) (uid : String) : Bool :=
  (alookup st.parts uid).isSome || partIsLink st uid

/-- `part_path.stat().st_size` of the staging file (0 when absent). -/
def partSize (st : Store) (uid : String) : Nat :=
  ((alookup st.parts uid).getD []).length

def isDirAt (st : Store) (p : List String) : Bool :=
  match fsLookup st.fs p with
  | some .dir => true
  | _ => false

def isSymlinkAt (st : Store) (p : List String) : Bool :=
  match fsLookup st.fs p with
  | some (.symlink _) => true
  | _ => false

/-- `p.exists()` over static entries and finalized files (one-level symlink
follow for existence, as `Path.exists` follows links). -/
def fileExists (st : Store) (p : List String) : Bool :=
  match fsLookup st.fs p with
  | some (.symlink t) =>
      (fsLookup st.fs t).isSome || (alookup st.files t).isSome
  | some _ => true
  | none => (alookup st.files p).isSome

/-- The check `meta/part path .resolve().relative_to(UPLOADS_DIR)` (init
lines 252-255, chunk lines 281-284): canonicalize `ROOT/.uploads/<name>`
and require it to stay under the uploads directory. -/
def metaPathInsideUploads (st : Store) (name : String) : Bool :=
  (st.root ++ [".uploads"]).isPrefixOf
    (canonLoop st.fs MAXLINKS (st.root ++ [".uploads", name]))

/-- `str(Path(path) / filename)` for a separator-free filename. -/
def joinRel (path filename : String) : String :=
  if path = "" then filename else path ++ "/" ++ filename

/-- Python file write at an offset (`seek(offset)` then sequential writes):
overwrites in place, zero-fills any gap beyond the old end, and leaves the
file untouched when no byte is written. -/
def writeAt (old : List Nat) (offset : Nat) (data : List Nat) : List Nat :=
  if data = [] then old
  else
    old.take offset ++ List.replicate (offset - old.length) 0 ++ data ++
      old.drop (offset + data.length)

/-! ## Endpoints

Each endpoint returns the post-state together with the HTTP result, so
mutations performed before an exception are preserved. -/

/-- Embedding of `api_upload_init` (lines 221-266).  `uploadId?` is the
client-supplied id (`None` models an absent or empty field, which the
Python `or` treats alike); `freshId` is the server-generated `uuid4` used when the
client supplies none. -/
def api_upload_init (st : Store) (path filename : String) (totalSize : Int)
    (uploadId? : Option String) (freshId : String) : Store × Except HErr String :=
  let idRes : Except HErr String :=
    match uploadId? with
    | some u => validate_upload_id u
    | none =>
      match uuidNormalize freshId with
      | some u => .ok u
      | none => .error ⟨500, "Internal Server Error"⟩
  match idRes with
  | .error e => (st, .error e)
  | .ok uid =>
    let fname := safe_filename filename
    if fname = "" then (st, .error ⟨400, "Missing filename"⟩)
    else if totalSize ≤ 0 then (st, .error ⟨400, "Invalid totalSize"⟩)
    else if MAX_UPLOAD_BYTES < totalSize then
      (st, .error ⟨400, "Max upload size is " ++ toString MAX_UPLOAD_BYTES ++ " bytes"⟩)
    else
      match resolveSafePath st.fs st.root path with
      | .error e => (st, .error e)
      | .ok parent =>
        if !(fileExists st parent && isDirAt st parent) then
          (st, .error ⟨400, "Parent directory invalid"⟩)
        else if !metaPathInsideUploads st (uid ++ ".json") then
          (st, .error ⟨500, "Server upload path invalid"⟩)
        else
          let meta : UploadMeta :=
            { uploadId := uid, path := path, filename := fname, totalSize := totalSize }
          let st := { st with metas := ainsert st.metas uid meta }
          let st :=
            if partExists st uid then st
            else { st with parts := ainsert st.parts uid [] }
          (st, .ok uid)

/-- Embedding of `api_upload_chunk` (lines 269-317).  The request carries
`uploadId`, `offset` and the chunk bytes.  Everything inside the Python
`try:` block (part creation, the offset validation, the write) is wrapped
by `except Exception: raise HTTPException(500, "Failed to write chunk")`,
and `HTTPException` is itself an `Exception`, so the 400 raised for a
negative offset is replaced by that generic 500.  On success the endpoint
returns `f.tell()`, the stream position after the write, i.e.
`offset + len(bytes written)`. -/
def api_upload_chunk (st : Store) (uploadId : String) (offset : Int)
    (chunk : List Nat) : Store × Except HErr Nat :=
  match validate_upload_id uploadId with
  | .error e => (st, .error e)
  | .ok uid =>
    if (alookup st.metas uid).isNone then (st, .error ⟨404, "uploadId not found"⟩)
    else if !metaPathInsideUploads st (uid ++ ".json") then
      (st, .error ⟨400, "Invalid uploadId"⟩)
    else if partExists st uid && partIsLink st uid then
      (st, .error ⟨400, "Corrupt upload state"⟩)
    else
      let st1 :=
        if partExists st uid then st
        else { st with parts := ainsert st.parts uid [] }
      if offset < 0 then (st1, .error ⟨500, "Failed to write chunk"⟩)
      else
        let old := (alookup st1.parts uid).getD []
        let st2 := { st1 with parts := ainsert st1.parts uid (writeAt old offset.toNat chunk) }
        (st2, .ok (offset.toNat + chunk.length))

/-- Embedding of `api_upload_status` (lines 320-330): `received` is the
current staging-file size (0 when the file is absent). -/
def api_upload_status (st : Store) (uploadId : String) : Except HErr (Nat × Int) :=
  match validate_upload_id uploadId with
  | .error e => .error e
  | .ok uid =>
    match alookup st.metas uid with
    | none => .error ⟨404, "uploadId not found"⟩
    | some meta =>
      let received := if partExists st uid then partSize st uid else 0
      .ok (received, meta.totalSize)

/-- Embedding of `api_upload_complete` (lines 333-374): load metadata,
require the staging size to equal the declared total (else the
size-mismatch 400 reporting both counts), re-sanitize the stored filename,
resolve the sandboxed destination, refuse an existing symlink destination,
then atomically promote the staging file and drop the metadata record.
`os.replace` onto an existing directory fails inside the final `try`,
surfacing the generic 500. -/
def api_upload_complete (st : Store) (uploadId? : Option String) :
    Store × Except HErr Unit :=
  match uploadId? with
  | none => (st, .error ⟨400, "Missing uploadId"⟩)
  | some rawId =>
    match validate_upload_id rawId with
    | .error e => (st, .error e)
    | .ok uid =>
      match alookup st.metas uid with
      | none => (st, .error ⟨404, "uploadId not found"⟩)
      | some meta =>
        if !partExists st uid || partIsLink st uid then
          (st, .error ⟨404, "part file not found"⟩)
        else
          let received := partSize st uid
          if (received : Int) ≠ meta.totalSize then
            (st, .error ⟨400, "Incomplete upload: received " ++ toString received
                              ++ " of " ++ toString meta.totalSize⟩)
          else
            let fname := safe_filename meta.filename
            if fname = "" then
              (st, .error ⟨400, "Invalid filename in upload metadata"⟩)
            else
              match resolveSafePath st.fs st.root (joinRel meta.path fname) with
              | .error e => (st, .error e)
              | .ok dest =>
                if fileExists st dest && isSymlinkAt st dest then
                  (st, .error ⟨400, "Refusing to overwrite symlink"⟩)
                else if isDirAt st dest then
                  (st, .error ⟨500, "Failed to finalize upload"⟩)
                else
                  let content := (alookup st.parts uid).getD []
                  ({ st with
                      parts := aerase st.parts uid
                      metas := aerase st.metas uid
                      files := ainsert st.files dest content }, .ok ())

/-! ## Durability trace model for the metadata write of `api_upload_init`

`open_atomic` (lines 77-96) opens the given path directly with
`os.open(path, flags, perms)`; for mode `"w"` the flags are
`O_WRONLY | O_CREAT | O_TRUNC` — no temp path, no rename.  The metadata
write at lines 256-257 is therefore the operation sequence "truncating
open at the published path, then write", with no fsync. -/

/-- The open(2) flag set `open_atomic` computes from its `mode` string. -/
structure OpenFlags : Type where
  wronly : Bool
  excl : Bool
  append : Bool
  rdwr : Bool
  trunc : Bool
  deriving DecidableEq, Repr

def open_atomic_flags (mode : String) : OpenFlags :=
  { wronly := true
    excl := mode.toList.contains 'x'
    append := mode.toList.contains 'a'
    rdwr := mode.toList.contains '+'
    trunc := mode.toList.contains 'w' }

inductive FsOp : Type
  | openTrunc (p : List String)
  | writeB (p : List String) (bytes : List Nat)
  | fsyncF (p : List String)
  | renameF (src dst : List String)
  deriving DecidableEq, Repr

def applyFsOp (files : List (List String × List Nat)) : FsOp → List (List String × List Nat)
  | .openTrunc p => ainsert files p []
  | .writeB p b => ainsert files p (((alookup files p).getD []) ++ b)
  | .fsyncF _ => files
  | .renameF s d =>
    match alookup files s with
    | some c => ainsert (aerase files s) d c
    | none => files

def runOps (files : List (List String × List Nat)) (ops : List FsOp) :
    List (List String × List Nat) :=
  ops.foldl applyFsOp files

/-- The filesystem-operation sequence `api_upload_init` performs to persist
the metadata record (lines 256-257 via `open_atomic` with mode `"w"`). -/
def initMetaTrace (metaPath : List String) (payload : List Nat) : List FsOp :=
  [.openTrunc metaPath, .writeB metaPath payload]

/-- Crash-safety of a publish sequence: after any prefix of the operations,
the published path holds either nothing or the fully-formed record. -/
def crashSafePublish (published : List String) (payload : List Nat)
    (initFiles : List (List String × List Nat)) (trace : List FsOp) : Prop :=
  ∀ k : Nat,
    alookup (runOps initFiles (trace.take k)) published = none ∨
    alookup (runOps initFiles (trace.take k)) published = some payload

/-! ## Helper lemmas -/

theorem alookup_ainsert_self {κ α : Type} [BEq κ] [LawfulBEq κ]
    (l : List (κ × α)) (k : κ) (v : α) : alookup (ainsert l k v) k = some v := by
  induction l with
  | nil => simp [ainsert, alookup]
  | cons e rest ih =>
    by_cases h : e.1 == k
    · simp [ainsert, alookup, h]
    · simp [ainsert, alookup, h, ih]

theorem ainsert_of_alookup_eq {κ α : Type} [BEq κ] [LawfulBEq κ]
    (l : List (κ × α)) (k : κ) (v : α) (h : alookup l k = some v) :
    ainsert l k v = l := by
  induction l with
  | nil => simp [alookup] at h
  | cons e rest ih =>
    by_cases he : e.1 == k
    · simp [alookup, he] at h
      have hk : e.1 = k := eq_of_beq he
      simp [ainsert, he, ← hk, ← h]
    · simp [alookup, he] at h
      simp [ainsert, he, ih h]

theorem ainsert_ainsert {κ α : Type} [BEq κ] [LawfulBEq κ]
    (l : List (κ × α)) (k : κ) (v w : α) :
    ainsert (ainsert l k v) k w = ainsert l k w := by
  induction l with
  | nil => simp [ainsert]
  | cons e rest ih =>
    by_cases h : e.1 == k
    · simp [ainsert, h]
    · simp [ainsert, h, ih]

theorem alookup_aerase_self {κ α : Type} [BEq κ] [LawfulBEq κ]
    (l : List (κ × α)) (k : κ) : alookup (aerase l k) k = none := by
  induction l with
  | nil => simp [aerase, alookup]
  | cons e rest ih =>
    by_cases h : e.1 == k
    · simpa [aerase, List.filter, bne, h] using ih
    · simpa [aerase, List.filter, bne, h, alookup] using ih

theorem alookup_mem {κ α : Type} [BEq κ] (l : List (κ × α)) (k : κ) (v : α)
    (h : alookup l k = some v) : ∃ k', (k', v) ∈ l := by
  induction l with
  | nil => simp [alookup] at h
  | cons e rest ih =>
    by_cases he : e.1 == k
    · simp [alookup, he] at h
      exact ⟨e.1, by simp [← h]⟩
    · simp [alookup, he] at h
      obtain ⟨k', hk'⟩ := ih h
      exact ⟨k', by simp [hk']⟩

theorem prefixOf_eq_true_iff {l₁ l₂ : List String} :
    l₁.isPrefixOf l₂ = true ↔ l₁ <+: l₂ := by
  exact List.isPrefixOf_iff_prefix

/-- Resulting file length of a non-trivial positioned write. -/
theorem writeAt_length (old : List Nat) (o : Nat) (d : List Nat) (hd : d ≠ []) :
    (writeAt old o d).length = max old.length (o + d.length) := by
  simp only [writeAt, if_neg hd, List.length_append, List.length_take,
    List.length_replicate, List.length_drop]
  omega

theorem writeAt_pre_length (old : List Nat) (o : Nat) :
    (old.take o ++ List.replicate (o - old.length) 0).length = o := by
  simp only [List.length_append, List.length_take, List.length_replicate]
  omega

/-- Re-writing the same bytes at the same offset changes nothing. -/
theorem writeAt_idem (old : List Nat) (o : Nat) (d : List Nat) :
    writeAt (writeAt old o d) o d = writeAt old o d := by
  by_cases hd : d = []
  · simp [writeAt, hd]
  · unfold writeAt
    rw [if_neg hd, if_neg hd]
    have hpre := writeAt_pre_length old o
    set pre := old.take o ++ List.replicate (o - old.length) 0 with hprdef
    set suf := old.drop (o + d.length) with hsufdef
    have h1 : ((pre ++ d ++ suf).take o) = pre := by
      rw [show pre ++ d ++ suf = pre ++ (d ++ suf) by simp, ← hpre,
        List.take_left pre (d ++ suf)]
    have h2 : (pre ++ d ++ suf).drop (o + d.length) = suf := by
      have : o + d.length = (pre ++ d).length := by
        simp [List.length_append, hpre]
      rw [this, List.drop_left]
    have h3 : o - (pre ++ d ++ suf).length = 0 := by
      simp [List.length_append, hpre]
    rw [h1, h2, h3]
    simp

theorem splitOnChar_ne_nil (sep : Char) (l : List Char) : splitOnChar sep l ≠ [] := by
  cases l with
  | nil => simp [splitOnChar]
  | cons c rest =>
    by_cases h : c = sep
    · simp [splitOnChar, h]
    · simp only [splitOnChar, if_neg h]
      cases splitOnChar sep rest <;> simp

theorem mem_splitOnChar_no_sep (sep : Char) (l piece : List Char)
    (hp : piece ∈ splitOnChar sep l) (c : Char) (hc : c ∈ piece) : c ≠ sep := by
  induction l generalizing piece with
  | nil =>
    simp [splitOnChar] at hp
    subst hp
    simp at hc
  | cons c' rest ih =>
    by_cases h : c' = sep
    · simp only [splitOnChar, if_pos h, List.mem_cons] at hp
      rcases hp with hp | hp
      · subst hp; simp at hc
      · exact ih piece hp hc
    · simp only [splitOnChar, if_neg h] at hp
      rcases hrec : splitOnChar sep rest with _ | ⟨p, more⟩
      · exact absurd hrec (splitOnChar_ne_nil sep rest)
      · rw [hrec] at hp
        simp only [List.mem_cons] at hp
        rcases hp with hp | hp
        · subst hp
          rcases List.mem_cons.mp hc with hc' | hc'
          · subst hc'; exact h
          · exact ih p (by rw [hrec]; exact List.mem_cons_self p more) hc'
        · exact ih piece (by rw [hrec]; exact List.mem_cons_of_mem p hp) hc

theorem splitOnChar_of_no_sep (sep : Char) (l : List Char)
    (h : ∀ c ∈ l, c ≠ sep) : splitOnChar sep l = [l] := by
  induction l with
  | nil => simp [splitOnChar]
  | cons c rest ih =>
    have hc : c ≠ sep := h c (List.mem_cons_self c rest)
    have hrest : splitOnChar sep rest = [rest] :=
      ih (fun x hx => h x (List.mem_cons_of_mem c hx))
    simp [splitOnChar, if_neg hc, hrest]

theorem lastComponent_no_sep (l : List Char) (c : Char)
    (hc : c ∈ lastComponent l) : c ≠ '/' := by
  unfold lastComponent at hc
  rcases hgl : (((splitOnChar '/' l).filter
      (fun seg => !seg.isEmpty && seg != ['.']))).getLast? with _ | piece
  · rw [hgl] at hc; simp at hc
  · rw [hgl] at hc
    simp only [Option.getD_some] at hc
    have hmem := List.mem_of_mem_getLast? hgl
    have hmem' := List.mem_of_mem_filter hmem
    exact mem_splitOnChar_no_sep '/' l piece hmem' c hc

/-- Symlink-free filesystems have no link targets anywhere. -/
theorem linkTarget_eq_none (fs : Fs) (p : List String)
    (hfs : ∀ e ∈ fs, isSymlinkEntry e.2 = false) : linkTarget fs p = none := by
  unfold linkTarget fsLookup
  rcases hl : alookup fs p with _ | entry
  · rfl
  · obtain ⟨k', hk'⟩ := alookup_mem fs p entry hl
    have := hfs (k', entry) hk'
    cases entry <;> simp [isSymlinkEntry] at this ⊢

/-- With no symlinks and no dot segments, one canonicalization pass keeps
the path as it is. -/
theorem canonSegs_clean (fs : Fs) (acc l : List String)
    (hns : ∀ p, linkTarget fs p = none)
    (hl : ∀ seg ∈ l, seg ≠ "." ∧ seg ≠ "..") :
    canonSegs fs acc l = .done (acc ++ l) := by
  induction l generalizing acc with
  | nil => simp [canonSegs]
  | cons seg rest ih =>
    have hseg := hl seg (List.mem_cons_self seg rest)
    have hrest : ∀ s ∈ rest, s ≠ "." ∧ s ≠ ".." :=
      fun s hs => hl s (List.mem_cons_of_mem seg hs)
    simp only [canonSegs, if_neg hseg.1, if_neg hseg.2, hns (acc ++ [seg])]
    rw [ih (acc ++ [seg]) hrest]
    simp

/-! ## Concrete fixtures -/

def uuidZ : String := "00000000-0000-0000-0000-000000000000"

def fsData : Fs := [(["data"], .dir), (["data", ".uploads"], .dir)]

def emptyStore : Store :=
  { fs := fsData, root := ["data"], metas := [], parts := [], partLinks := [], files := [] }

def fsSibling : Fs := [(["data"], .dir), (["data2"], .dir)]

def fsLinked : Fs :=
  [(["data"], .dir), (["data", "link"], .symlink ["etc"]), (["etc"], .dir)]

/-! ## Claims -/

/-- C1: for every client-supplied relative path whose canonicalized
resolution is not Root itself or a descendant of Root, `resolve_safe_path`
fails with InvalidPath (HTTP 400 "Invalid path"); the containment check is
structural ancestry on the canonicalized components, not string-prefix
matching, so a sibling directory such as `/data2` beside root `/data` is
rejected even though `/data` is a string prefix of `/data2`. -/
theorem c1_resolve_rejects_escapes :
    (∀ (fs : Fs) (root : List String) (rel : String),
        ¬ isAncestorOrSelf root (canonicalOf fs root rel) →
        resolveSafePath fs root rel = .error ⟨400, "Invalid path"⟩)
    ∧ strStartOf (pathString ["data"]) (pathString ["data2"]) = true
    ∧ resolveSafePath fsSibling ["data"] "../data2" = .error ⟨400, "Invalid path"⟩ := by
  refine ⟨?_, by decide, rfl⟩
  intro fs root rel h
  have hb : ¬ root.isPrefixOf (canonicalOf fs root rel) = true :=
    fun hb => h (prefixOf_eq_true_iff.mp hb)
  simp only [resolveSafePath, if_neg hb]

/-- C1 witness: a symlink inside the root pointing at `/etc` makes
`link/passwd` canonicalize outside the root and be rejected. -/
theorem c1_witness :
    resolveSafePath fsLinked ["data"] "link/passwd" = .error ⟨400, "Invalid path"⟩ :=
  c1_resolve_rejects_escapes.1 fsLinked ["data"] "link/passwd" (by decide)

/-- C3 counterexample: the metadata write sequence `api_upload_init`
actually performs (truncating open at the published path, then the write;
`open_atomic` lines 77-96, used at lines 256-257) is not crash-safe: after
the first operation the published path holds an empty, non-fully-formed
record. -/
theorem c3_counterexample :
    ¬ crashSafePublish ["data", ".uploads", "u.json"] [123] []
        (initMetaTrace ["data", ".uploads", "u.json"] [123]) :=
  fun h => absurd (h 1) (by decide)

/-- Trace operations that a temp-write-plus-rename or
write-fsync-publish sequence would contain. -/
def isDurabilityOp : FsOp → Bool
  | .renameF _ _ => true
  | .fsyncF _ => true
  | _ => false

/-- C3 (amended): `api_upload_init` persists the metadata record by opening
the published path itself with `O_TRUNC` and writing in place — the trace
contains no rename and no fsync — so a crash between the truncating open
and the completed write leaves a half-written (here: empty) record
observable at the published path. -/
theorem c3_meta_write_not_atomic (mp : List String) (payload : List Nat)
    (hp : payload ≠ []) :
    (open_atomic_flags "w").trunc = true ∧
    (initMetaTrace mp payload).filter isDurabilityOp = [] ∧
    alookup (runOps [] ((initMetaTrace mp payload).take 1)) mp = some [] ∧
    ([] : List Nat) ≠ payload := by
  refine ⟨rfl, ?_, ?_, fun he => hp he.symm⟩
  · simp [initMetaTrace, isDurabilityOp]
  · simp [initMetaTrace, runOps, applyFsOp, alookup, ainsert]

/-- C3 witness at a concrete metadata path and payload. -/
theorem c3_witness :
    (open_atomic_flags "w").trunc = true ∧
    (initMetaTrace ["data", ".uploads", "u.json"] [123]).filter isDurabilityOp = [] ∧
    alookup (runOps [] ((initMetaTrace ["data", ".uploads", "u.json"] [123]).take 1))
        ["data", ".uploads", "u.json"] = some [] ∧
    ([] : List Nat) ≠ [123] :=
  c3_meta_write_not_atomic ["data", ".uploads", "u.json"] [123] (by decide)

/-- A single safe path component: no separator and no control character
(byte values below 0x20 and 0x7F). -/
def safeComponent (n : String) : Bool :=
  n.toList.all (fun c => c != '/' && !(c.toNat < 32 || c.toNat == 127))

/-- C6 counterexample: `safe_filename` is not idempotent.  The input
`"\x00."` (a control character before a dot; one pass turns it into a
name that is safe by the criterion of the claim itself) sanitizes to `"."`, and sanitizing
`"."` again gives `""`. -/
theorem c6_counterexample :
    safe_filename "\x00." = "." ∧
    safeComponent "." = true ∧
    safe_filename (safe_filename "\x00.") = "" ∧
    safe_filename (safe_filename "\x00.") ≠ safe_filename "\x00." := by
  refine ⟨rfl, rfl, rfl, by decide⟩

/-- C6 (amended): `safe_filename` always returns a separator-free,
control-character-free value, keeps only the final path component
(`safe_filename "../../etc/passwd" = "passwd"`), and is a no-op on every
already-safe name other than `"."`; consequently it is idempotent on every
input whose sanitized value is not `"."`. -/
theorem c6_sanitize_amended :
    (∀ s : String, safeComponent (safe_filename s) = true) ∧
    safe_filename "../../etc/passwd" = "passwd" ∧
    (∀ n : String, safeComponent n = true → n ≠ "." → safe_filename n = n) ∧
    (∀ s : String, safe_filename s ≠ "." →
        safe_filename (safe_filename s) = safe_filename s) := by
  have hsafe : ∀ s : String, safeComponent (safe_filename s) = true := by
    intro s
    by_cases hs : s = ""
    · simp [safe_filename, hs, safeComponent]
    · simp only [safe_filename, if_neg hs, safeComponent]
      rw [List.all_eq_true]
      intro c hc
      have hc' : c ∈ stripControlChars (lastComponent s.toList) := hc
      have hmem := List.mem_of_mem_filter hc'
      have hkeep := List.of_mem_filter hc'
      have hsep : c ≠ '/' := lastComponent_no_sep s.toList c hmem
      simp only [Bool.and_eq_true, bne_iff_ne, ne_eq]
      exact ⟨hsep, hkeep⟩
  have hfix : ∀ n : String, safeComponent n = true → n ≠ "." → safe_filename n = n := by
    intro n hn hdot
    by_cases hne : n = ""
    · simp [safe_filename, hne]
    · simp only [safe_filename, if_neg hne]
      have hnosep : ∀ c ∈ n.toList, c ≠ '/' := by
        intro c hc
        have := (List.all_eq_true.mp hn) c hc
        simp only [Bool.and_eq_true, bne_iff_ne, ne_eq] at this
        exact this.1
      have hnoctl : ∀ c ∈ n.toList, (!(c.toNat < 32 || c.toNat == 127)) = true := by
        intro c hc
        have := (List.all_eq_true.mp hn) c hc
        simp only [Bool.and_eq_true] at this
        exact this.2
      have hsplit : splitOnChar '/' n.toList = [n.toList] :=
        splitOnChar_of_no_sep '/' n.toList hnosep
      have hlist_ne : n.toList ≠ [] := fun h => hne (by
        cases n with | mk data => simp only [String.toList] at h; simp [h])
      have hlist_nd : n.toList ≠ ['.'] := fun h => hdot (by
        cases n with | mk data => simp only [String.toList] at h; simp [h])
      have hlast : lastComponent n.toList = n.toList := by
        unfold lastComponent
        rw [hsplit]
        have h1 : (!n.toList.isEmpty && n.toList != ['.']) = true := by
          simp only [Bool.and_eq_true, Bool.not_eq_true', bne_iff_ne, ne_eq]
          refine ⟨?_, hlist_nd⟩
          cases hl : n.toList with
          | nil => exact absurd hl hlist_ne
          | cons a t => rfl
        rw [List.filter_cons, if_pos h1]
        simp
      rw [hlast]
      have hstrip : stripControlChars n.toList = n.toList :=
        List.filter_eq_self.mpr hnoctl
      rw [hstrip]
      cases n with | mk data => rfl
  refine ⟨hsafe, rfl, hfix, ?_⟩
  intro s hdot
  exact hfix (safe_filename s) (hsafe s) hdot

/-- C6 witness: the amended no-op property at the already-safe name
`"report.txt"`, together with the general safety at a traversal input. -/
theorem c6_witness :
    safe_filename "report.txt" = "report.txt" ∧
    safeComponent (safe_filename "a/b\x01c") = true :=
  ⟨c6_sanitize_amended.2.2.1 "report.txt" (by decide) (by decide),
   c6_sanitize_amended.1 "a/b\x01c"⟩

/-- Forward computation of a successful chunk write on an existing
staging file. -/
theorem chunk_run (st : Store) (rawId uid : String) (o : Int) (d : List Nat)
    (meta : UploadMeta) (content : List Nat)
    (hv : validate_upload_id rawId = .ok uid)
    (hm : alookup st.metas uid = some meta)
    (hmp : metaPathInsideUploads st (uid ++ ".json") = true)
    (hl : partIsLink st uid = false)
    (hpe : alookup st.parts uid = some content)
    (ho : ¬ o < 0) :
    api_upload_chunk st rawId o d =
      ({ st with parts := ainsert st.parts uid (writeAt content o.toNat d) },
       .ok (o.toNat + d.length)) := by
  unfold api_upload_chunk
  rw [hv]
  simp only [hm, hmp, hl, hpe, partExists, Option.isNone_some, Bool.not_true,
    Bool.false_eq_true, if_false, Bool.and_false,
    Option.isSome_some, Bool.true_or, if_true, if_neg ho, Option.getD_some]

/-- Inversion of a successful chunk write: the preconditions the code
checked, the returned value, and the shape of the post-state. -/
theorem chunk_ok_inv (st st' : Store) (rawId uid : String) (o : Int)
    (d : List Nat) (r : Nat)
    (hv : validate_upload_id rawId = .ok uid)
    (h : api_upload_chunk st rawId o d = (st', .ok r)) :
    (alookup st.metas uid).isSome = true ∧
    metaPathInsideUploads st (uid ++ ".json") = true ∧
    partIsLink st uid = false ∧
    ¬ o < 0 ∧
    r = o.toNat + d.length ∧
    st' = { st with
      parts := ainsert st.parts uid (writeAt ((alookup st.parts uid).getD []) o.toNat d) } := by
  unfold api_upload_chunk at h
  rw [hv] at h
  simp only [] at h
  cases hm : alookup st.metas uid with
  | none => rw [hm] at h; simp at h
  | some meta =>
    rw [hm] at h
    simp only [Option.isNone_some, Bool.false_eq_true, if_false] at h
    by_cases hmp : metaPathInsideUploads st (uid ++ ".json")
    · rw [hmp] at h
      simp only [Bool.not_true, Bool.false_eq_true, if_false] at h
      by_cases hl : partIsLink st uid
      · simp only [partExists, hl, Bool.and_true, Bool.or_true] at h
        simp at h
      · simp only [hl, Bool.and_false, Bool.false_eq_true, if_false] at h
        by_cases ho : o < 0
        · rw [if_pos ho] at h
          split at h <;> simp at h
        · rw [if_neg ho] at h
          cases hpe : alookup st.parts uid with
          | some content =>
            have hex : partExists st uid = true := by
              simp [partExists, hpe]
            rw [if_pos hex] at h
            simp only [hpe, Option.getD_some] at h ⊢
            obtain ⟨h1, h2⟩ := Prod.mk.injEq .. ▸ h
            exact ⟨by simp [hm], hmp, Bool.eq_false_iff.mpr hl, ho,
              (Except.ok.injEq .. ▸ h2).symm, h1.symm⟩
          | none =>
            have hex : partExists st uid = false := by
              simp [partExists, hpe, partIsLink] at hl ⊢
              exact hl
            rw [if_neg (by simp [hex])] at h
            simp only [alookup_ainsert_self, Option.getD_some] at h
            simp only [hpe, Option.getD_none]
            obtain ⟨h1, h2⟩ := Prod.mk.injEq .. ▸ h
            refine ⟨by simp [hm], hmp, Bool.eq_false_iff.mpr hl, ho,
              (Except.ok.injEq .. ▸ h2).symm, ?_⟩
            rw [← h1]
            simp [ainsert_ainsert]
    · have hmp' : metaPathInsideUploads st (uid ++ ".json") = false :=
        Bool.eq_false_iff.mpr hmp
      rw [hmp'] at h
      simp at h

def c4Store : Store :=
  { emptyStore with
      metas := [(uuidZ, ⟨uuidZ, "", "a.txt", 10⟩)], parts := [(uuidZ, [1, 2, 3, 4])] }

/-- C4 counterexample: overwriting the first byte of a 4-byte staging file
succeeds and returns `received = 1` (the position `f.tell()` reports after
the write), while the resulting staging file size is 4 — the returned
value is not the resulting file size. -/
theorem c4_counterexample :
    (api_upload_chunk c4Store uuidZ 0 [9]).2 = .ok 1 ∧
    partSize (api_upload_chunk c4Store uuidZ 0 [9]).1 uuidZ = 4 ∧
    (1 : Nat) ≠ 4 :=
  ⟨rfl, rfl, by decide⟩

/-- C4 (amended): a successful chunk write returns
`received = offset + length(chunk)` — the file position after the write,
as `f.tell()` reports — and the resulting staging size is
`max(previous size, offset + length)`; the returned value therefore equals
the staging size exactly when the write reaches at least the previous end
of file, and is smaller when it overwrites an earlier range of a longer
file. -/
theorem c4_received_is_write_end (st st' : Store) (rawId uid : String)
    (o : Int) (d : List Nat) (r : Nat)
    (hv : validate_upload_id rawId = .ok uid)
    (hd : d ≠ [])
    (h : api_upload_chunk st rawId o d = (st', .ok r)) :
    r = o.toNat + d.length ∧
    partSize st' uid = max (partSize st uid) (o.toNat + d.length) ∧
    (r = partSize st' uid ↔ partSize st uid ≤ o.toNat + d.length) := by
  obtain ⟨-, -, -, -, hr, hst⟩ := chunk_ok_inv st st' rawId uid o d r hv h
  have hsize : partSize st' uid = max (partSize st uid) (o.toNat + d.length) := by
    rw [hst]
    simp only [partSize, alookup_ainsert_self, Option.getD_some]
    exact writeAt_length ((alookup st.parts uid).getD []) o.toNat d hd
  refine ⟨hr, hsize, ?_⟩
  rw [hr, hsize]
  omega

def c4After : Store := (api_upload_chunk c4Store uuidZ 0 [9]).1

/-- C4 witness: the amended equations at the concrete overwrite. -/
theorem c4_witness :
    (1 : Nat) = (0 : Int).toNat + [9].length ∧
    partSize c4After uuidZ = max (partSize c4Store uuidZ) ((0 : Int).toNat + [9].length) ∧
    ((1 : Nat) = partSize c4After uuidZ ↔
      partSize c4Store uuidZ ≤ (0 : Int).toNat + [9].length) :=
  c4_received_is_write_end c4Store c4After uuidZ uuidZ 0 [9] 1 rfl (by decide) rfl

def c5Store : Store :=
  { emptyStore with
      metas := [(uuidZ, ⟨uuidZ, "", "a.txt", 10⟩)], parts := [(uuidZ, [])] }

/-- C5 counterexample: an empty chunk (length 0) at offset 5 on an empty
staging file succeeds (`received = 5`), but the resulting staging size is
0, not at least `offset + length = 5` — `f.seek` past the end without a
write does not extend the file. -/
theorem c5_counterexample :
    (api_upload_chunk c5Store uuidZ 5 []).2 = .ok 5 ∧
    partSize (api_upload_chunk c5Store uuidZ 5 []).1 uuidZ = 0 ∧
    ¬ ((5 : Int).toNat + ([] : List Nat).length ≤ 0) :=
  ⟨rfl, rfl, by decide⟩

/-- C5 (amended): a successful chunk write of a non-empty byte string of
length `L` at offset `o` results in a staging size of at least `o + L`
(an empty chunk leaves the staging file unchanged), and repeating the
same write with the same bytes at the same offset is idempotent: it
changes neither the staging state nor the returned value. -/
theorem c5_growth_and_idempotent (st st' : Store) (rawId uid : String)
    (o : Int) (d : List Nat) (r : Nat)
    (hv : validate_upload_id rawId = .ok uid)
    (h : api_upload_chunk st rawId o d = (st', .ok r)) :
    (d ≠ [] → o.toNat + d.length ≤ partSize st' uid) ∧
    api_upload_chunk st' rawId o d = (st', .ok r) := by
  obtain ⟨hm, hmp, hl, ho, hr, hst⟩ := chunk_ok_inv st st' rawId uid o d r hv h
  obtain ⟨meta, hmeta⟩ := Option.isSome_iff_exists.mp hm
  constructor
  · intro hd
    rw [hst]
    simp only [partSize, alookup_ainsert_self, Option.getD_some]
    rw [writeAt_length ((alookup st.parts uid).getD []) o.toNat d hd]
    omega
  · have hm' : alookup st'.metas uid = some meta := by rw [hst]; exact hmeta
    have hmp' : metaPathInsideUploads st' (uid ++ ".json") = true := by
      rw [hst]; exact hmp
    have hl' : partIsLink st' uid = false := by rw [hst]; exact hl
    have hpe' : alookup st'.parts uid =
        some (writeAt ((alookup st.parts uid).getD []) o.toNat d) := by
      rw [hst]; exact alookup_ainsert_self ..
    rw [chunk_run st' rawId uid o d meta
        (writeAt ((alookup st.parts uid).getD []) o.toNat d) hv hm' hmp' hl' hpe' ho]
    rw [writeAt_idem, hr]
    have hparts : ainsert st'.parts uid
        (writeAt ((alookup st.parts uid).getD []) o.toNat d) = st'.parts :=
      ainsert_of_alookup_eq _ _ _ hpe'
    rw [hparts]

def c5WStore : Store :=
  { emptyStore with
      metas := [(uuidZ, ⟨uuidZ, "", "a.txt", 10⟩)], parts := [(uuidZ, [0, 0, 0])] }

def c5WAfter : Store := (api_upload_chunk c5WStore uuidZ 3 [7, 8]).1

/-- C5 witness: concrete growth bound and idempotent repetition. -/
theorem c5_witness :
    (3 : Int).toNat + [7, 8].length ≤ partSize c5WAfter uuidZ ∧
    api_upload_chunk c5WAfter uuidZ 3 [7, 8] = (c5WAfter, .ok 5) :=
  ⟨(c5_growth_and_idempotent c5WStore c5WAfter uuidZ uuidZ 3 [7, 8] 5 rfl rfl).1
      (by decide),
   (c5_growth_and_idempotent c5WStore c5WAfter uuidZ uuidZ 3 [7, 8] 5 rfl rfl).2⟩

def c7Store : Store :=
  { emptyStore with
      metas := [(uuidZ, ⟨uuidZ, "", "a.txt", 10⟩)], parts := [(uuidZ, [])] }

/-- C7: a chunk request for an existing session with `offset = -1` does
not surface the 400 "Invalid offset" validation error: the check sits
inside the `try:` block whose blanket `except Exception` (which also
catches `HTTPException`) re-raises the generic 500 "Failed to write
chunk"; no bytes are written to the staging file. -/
theorem c7_invalid_offset_hidden_by_generic_500 :
    api_upload_chunk c7Store uuidZ (-1) [1, 2]
      = (c7Store, .error ⟨500, "Failed to write chunk"⟩) ∧
    (⟨500, "Failed to write chunk"⟩ : HErr) ≠ ⟨400, "Invalid offset"⟩ ∧
    alookup c7Store.parts uuidZ = some [] :=
  ⟨rfl, by decide, rfl⟩

/-- Inversion of a successful `complete`: the checks that must have
passed and the shape of the post-state (staging entry and metadata record
erased, destination file published). -/
theorem complete_ok_inv (st st' : Store) (rawId uid : String)
    (hv : validate_upload_id rawId = .ok uid)
    (h : api_upload_complete st (some rawId) = (st', .ok ())) :
    ∃ meta dest,
      alookup st.metas uid = some meta ∧
      partIsLink st uid = false ∧
      (partSize st uid : Int) = meta.totalSize ∧
      st' = { st with
        parts := aerase st.parts uid
        metas := aerase st.metas uid
        files := ainsert st.files dest ((alookup st.parts uid).getD []) } := by
  unfold api_upload_complete at h
  simp only [] at h
  rw [hv] at h
  simp only [] at h
  cases hm : alookup st.metas uid with
  | none => rw [hm] at h; simp at h
  | some meta =>
    rw [hm] at h
    simp only [] at h
    by_cases hq : (!partExists st uid || partIsLink st uid) = true
    · rw [if_pos hq] at h; simp at h
    · rw [if_neg hq] at h
      simp only [Bool.or_eq_true, Bool.not_eq_true', not_or] at hq
      by_cases hsz : (partSize st uid : Int) ≠ meta.totalSize
      · rw [if_pos hsz] at h; simp at h
      · rw [if_neg hsz] at h
        by_cases hf : safe_filename meta.filename = ""
        · rw [if_pos hf] at h; simp at h
        · rw [if_neg hf] at h
          cases hres : resolveSafePath st.fs st.root
              (joinRel meta.path (safe_filename meta.filename)) with
          | error e => rw [hres] at h; simp at h
          | ok dest =>
            rw [hres] at h
            simp only [] at h
            by_cases hsym : (fileExists st dest && isSymlinkAt st dest) = true
            · rw [if_pos hsym] at h; simp at h
            · rw [if_neg hsym] at h
              by_cases hdir : isDirAt st dest = true
              · rw [if_pos hdir] at h; simp at h
              · rw [if_neg hdir] at h
                obtain ⟨h1, -⟩ := Prod.mk.injEq .. ▸ h
                exact ⟨meta, dest, rfl, Bool.eq_false_iff.mpr hq.2,
                  not_not.mp hsz, h1.symm⟩

def mismatchDetail (received : Nat) (total : Int) : String :=
  "Incomplete upload: received " ++ toString received ++ " of " ++ toString total

/-- C2 counterexample: a session created by `init` with client filename
`"\x00."` stores the sanitized filename `"."`; after one chunk the staging
size equals the declared `totalSize` (status reports `(1, 1)`), yet
`complete` fails — because re-sanitizing `"."` at completion yields the
empty string — so the sentence that complete succeeds if and only if the
sizes match is false in the if direction. -/
theorem c2_counterexample :
    (api_upload_init emptyStore "" "\x00." 1 (some uuidZ) uuidZ).2 = .ok uuidZ ∧
    api_upload_status
        (api_upload_chunk (api_upload_init emptyStore "" "\x00." 1 (some uuidZ) uuidZ).1
          uuidZ 0 [65]).1 uuidZ = .ok (1, 1) ∧
    api_upload_complete
        (api_upload_chunk (api_upload_init emptyStore "" "\x00." 1 (some uuidZ) uuidZ).1
          uuidZ 0 [65]).1 (some uuidZ)
      = ((api_upload_chunk (api_upload_init emptyStore "" "\x00." 1 (some uuidZ) uuidZ).1
          uuidZ 0 [65]).1,
         .error ⟨400, "Invalid filename in upload metadata"⟩) :=
  ⟨rfl, rfl, rfl⟩

/-- C2 (amended): for a session with an existing metadata record and
staging file, `complete` succeeds only if the staging size equals the
declared `totalSize`; whenever they differ it fails with the
size-mismatch error reporting both byte counts and leaves the entire
state (staging file and metadata included) unchanged.  Equal sizes alone
do not guarantee success: the stored filename must also re-sanitize to a
non-empty name and the resolved destination must pass the sandbox,
symlink and directory checks. -/
theorem c2_size_mismatch_amended (st : Store) (rawId uid : String) (meta : UploadMeta)
    (hv : validate_upload_id rawId = .ok uid)
    (hm : alookup st.metas uid = some meta)
    (hpe : partExists st uid = true)
    (hl : partIsLink st uid = false) :
    ((partSize st uid : Int) ≠ meta.totalSize →
      api_upload_complete st (some rawId)
        = (st, .error ⟨400, mismatchDetail (partSize st uid) meta.totalSize⟩)) ∧
    (∀ st' : Store, api_upload_complete st (some rawId) = (st', .ok ()) →
      (partSize st uid : Int) = meta.totalSize) := by
  constructor
  · intro hne
    unfold api_upload_complete
    simp only []
    rw [hv]
    simp only []
    rw [hm]
    simp only []
    rw [if_neg (by simp [hpe, hl])]
    rw [if_pos hne]
    rfl
  · intro st' h
    obtain ⟨meta', dest, hm', -, hsz, -⟩ := complete_ok_inv st st' rawId uid hv h
    rw [hm] at hm'
    cases hm'
    exact hsz

def c2MisStore : Store :=
  { emptyStore with
      metas := [(uuidZ, ⟨uuidZ, "", "a.txt", 5⟩)], parts := [(uuidZ, [1])] }

/-- C2 witness: a one-byte staging file against a declared size of 5 fails
with the size-mismatch error reporting "received 1 of 5", state unchanged. -/
theorem c2_witness :
    api_upload_complete c2MisStore (some uuidZ)
      = (c2MisStore, .error ⟨400, "Incomplete upload: received 1 of 5"⟩) :=
  (c2_size_mismatch_amended c2MisStore uuidZ uuidZ ⟨uuidZ, "", "a.txt", 5⟩
      rfl rfl rfl rfl).1 (by decide)

/-- C8: after a successful `complete`, the metadata record is gone, the
staging file no longer exists at its session path, and a repeated
`complete` for the same id fails with 404 "uploadId not found". -/
theorem c8_complete_terminal (st st' : Store) (rawId uid : String)
    (hv : validate_upload_id rawId = .ok uid)
    (h : api_upload_complete st (some rawId) = (st', .ok ())) :
    alookup st'.metas uid = none ∧
    alookup st'.parts uid = none ∧
    partExists st' uid = false ∧
    api_upload_complete st' (some rawId) = (st', .error ⟨404, "uploadId not found"⟩) := by
  obtain ⟨meta, dest, hm, hl, hsz, hst⟩ := complete_ok_inv st st' rawId uid hv h
  have h1 : alookup st'.metas uid = none := by
    rw [hst]; exact alookup_aerase_self ..
  have h2 : alookup st'.parts uid = none := by
    rw [hst]; exact alookup_aerase_self ..
  refine ⟨h1, h2, ?_, ?_⟩
  · simp only [partExists, h2, Option.isSome_none, Bool.false_or]
    have : partIsLink st' uid = partIsLink st uid := by
      rw [hst]; rfl
    rw [this, hl]
  · unfold api_upload_complete
    simp only []
    rw [hv]
    simp only []
    rw [h1]

def c8Store : Store :=
  { emptyStore with
      metas := [(uuidZ, ⟨uuidZ, "", "a.txt", 2⟩)], parts := [(uuidZ, [10, 20])] }

def c8After : Store := (api_upload_complete c8Store (some uuidZ)).1

/-- C8 witness at a concrete finished session. -/
theorem c8_witness :
    alookup c8After.metas uuidZ = none ∧
    alookup c8After.parts uuidZ = none ∧
    partExists c8After uuidZ = false ∧
    api_upload_complete c8After (some uuidZ)
      = (c8After, .error ⟨404, "uploadId not found"⟩) :=
  c8_complete_terminal c8Store c8After uuidZ uuidZ rfl rfl

/-- Inversion of a successful `init` with a client-supplied id: the
normalized id is returned, the metadata record is (over)written, and the
staging file is created empty only when no staging file already exists. -/
theorem init_ok_inv (st st' : Store) (path filename : String) (total : Int)
    (rawId freshId uid : String)
    (h : api_upload_init st path filename total (some rawId) freshId = (st', .ok uid)) :
    validate_upload_id rawId = .ok uid ∧
    (partExists st uid = true →
      st' = { st with
        metas := ainsert st.metas uid ⟨uid, path, safe_filename filename, total⟩ }) ∧
    (partExists st uid = false →
      st' = { st with
        metas := ainsert st.metas uid ⟨uid, path, safe_filename filename, total⟩
        parts := ainsert st.parts uid [] }) := by
  unfold api_upload_init at h
  simp only [] at h
  cases hvr : validate_upload_id rawId with
  | error e => rw [hvr] at h; simp at h
  | ok uid' =>
    rw [hvr] at h
    simp only [] at h
    by_cases h1 : safe_filename filename = ""
    · rw [if_pos h1] at h; simp at h
    · rw [if_neg h1] at h
      by_cases h2 : total ≤ 0
      · rw [if_pos h2] at h; simp at h
      · rw [if_neg h2] at h
        by_cases h3 : MAX_UPLOAD_BYTES < total
        · rw [if_pos h3] at h; simp at h
        · rw [if_neg h3] at h
          cases hres : resolveSafePath st.fs st.root path with
          | error e => rw [hres] at h; simp at h
          | ok parent =>
            rw [hres] at h
            simp only [] at h
            by_cases h4 : (!(fileExists st parent && isDirAt st parent)) = true
            · rw [if_pos h4] at h; simp at h
            · rw [if_neg h4] at h
              by_cases h5 : (!metaPathInsideUploads st (uid' ++ ".json")) = true
              · rw [if_pos h5] at h; simp at h
              · rw [if_neg h5] at h
                have hpm : partExists { st with
                    metas := ainsert st.metas uid'
                      ⟨uid', path, safe_filename filename, total⟩ } uid'
                    = partExists st uid' := rfl
                rw [hpm] at h
                by_cases h6 : partExists st uid' = true
                · rw [if_pos h6] at h
                  obtain ⟨hA, hB⟩ := Prod.mk.injEq .. ▸ h
                  have huid : uid' = uid := Except.ok.injEq .. ▸ hB
                  subst huid
                  exact ⟨rfl, fun _ => hA.symm, fun hc => absurd h6 (by simp [hc])⟩
                · rw [if_neg h6] at h
                  obtain ⟨hA, hB⟩ := Prod.mk.injEq .. ▸ h
                  have huid : uid' = uid := Except.ok.injEq .. ▸ hB
                  subst huid
                  exact ⟨rfl, fun hc => absurd hc h6, fun _ => hA.symm⟩

def c9Store : Store := { emptyStore with parts := [(uuidZ, [7])] }

/-- C9 counterexample: `init` with a `requestedId` whose staging file from
an earlier abandoned session already exists (1 byte) succeeds without
truncating it, so immediately after init the `receivedBytes` of the session
(as `status` reports) is 1, not 0. -/
theorem c9_counterexample :
    (api_upload_init c9Store "" "a.txt" 5 (some uuidZ) uuidZ).2 = .ok uuidZ ∧
    api_upload_status (api_upload_init c9Store "" "a.txt" 5 (some uuidZ) uuidZ).1 uuidZ
      = .ok (1, 5) ∧
    (1 : Nat) ≠ 0 :=
  ⟨rfl, rfl, by decide⟩

/-- C9 (amended): a successful `init` creates an empty staging file only
when none exists for the session id (`if not part_path.exists()`); a
pre-existing staging file and its contents are preserved, so
`receivedBytes` immediately after init equals the pre-existing staging
size (0 only for a fresh id). -/
theorem c9_staging_preserved (st st' : Store) (path filename : String)
    (total : Int) (rawId freshId uid : String)
    (h : api_upload_init st path filename total (some rawId) freshId = (st', .ok uid)) :
    (partExists st uid = true → st'.parts = st.parts) ∧
    (partExists st uid = false →
      st'.parts = ainsert st.parts uid [] ∧ partSize st' uid = 0) := by
  obtain ⟨-, hT, hF⟩ := init_ok_inv st st' path filename total rawId freshId uid h
  constructor
  · intro hc
    rw [hT hc]
  · intro hc
    rw [hF hc]
    refine ⟨rfl, ?_⟩
    simp [partSize, alookup_ainsert_self]

def c9After : Store := (api_upload_init c9Store "" "a.txt" 5 (some uuidZ) uuidZ).1

/-- C9 witness: the pre-existing staging file is preserved verbatim. -/
theorem c9_witness : c9After.parts = c9Store.parts :=
  (c9_staging_preserved c9Store c9After "" "a.txt" 5 uuidZ uuidZ uuidZ rfl).1 rfl

/-- C10: the reserved staging directory `.uploads` sits inside Root, and
the sandbox resolve admits relative paths into it: for any session id
string (one that parses as a single non-dot path component, as every
normalized UUID plus extension does), `resolve_safe_path` on
`.uploads/<id>.part` succeeds — with the canonical path strictly below
Root — rather than failing with InvalidPath, so staging records are
addressable through the general path-based endpoints. -/
theorem c10_uploads_addressable (fs : Fs) (root : List String) (id : String)
    (hfs : ∀ e ∈ fs, isSymlinkEntry e.2 = false)
    (hroot : ∀ seg ∈ root, seg ≠ "." ∧ seg ≠ "..")
    (hsplit : splitPath (lstripSlash
        (if (".uploads/" ++ id ++ ".part") = "" then "."
         else ".uploads/" ++ id ++ ".part")) = [".uploads", id ++ ".part"])
    (hid : id ++ ".part" ≠ "." ∧ id ++ ".part" ≠ "..") :
    isAncestorOrSelf root (root ++ [".uploads"]) ∧
    resolveSafePath fs root (".uploads/" ++ id ++ ".part")
      = .ok (root ++ [".uploads", id ++ ".part"]) ∧
    isAncestorOrSelf (root ++ [".uploads"]) (root ++ [".uploads", id ++ ".part"]) := by
  have hns : ∀ p, linkTarget fs p = none := fun p => linkTarget_eq_none fs p hfs
  have hsegs : ∀ seg ∈ root ++ [".uploads", id ++ ".part"], seg ≠ "." ∧ seg ≠ ".." := by
    intro seg hseg
    rcases List.mem_append.mp hseg with hseg | hseg
    · exact hroot seg hseg
    · rcases List.mem_cons.mp hseg with hseg | hseg
      · subst hseg; exact ⟨by decide, by decide⟩
      · rcases List.mem_cons.mp hseg with hseg | hseg
        · subst hseg; exact hid
        · simp at hseg
  have hcanon : canonicalOf fs root (".uploads/" ++ id ++ ".part")
      = root ++ [".uploads", id ++ ".part"] := by
    unfold canonicalOf
    rw [hsplit]
    show canonLoop fs (39 + 1) (root ++ [".uploads", id ++ ".part"])
      = root ++ [".uploads", id ++ ".part"]
    unfold canonLoop
    rw [canonSegs_clean fs [] (root ++ [".uploads", id ++ ".part"]) hns hsegs]
    simp
  refine ⟨⟨[".uploads"], rfl⟩, ?_, ⟨[id ++ ".part"], by simp⟩⟩
  unfold resolveSafePath
  rw [hcanon, if_pos (prefixOf_eq_true_iff.mpr ⟨[".uploads", id ++ ".part"], rfl⟩)]

/-- C10 witness at the standard root and a concrete session id. -/
theorem c10_witness :
    isAncestorOrSelf ["data"] (["data"] ++ [".uploads"]) ∧
    resolveSafePath fsData ["data"] (".uploads/" ++ uuidZ ++ ".part")
      = .ok (["data"] ++ [".uploads", uuidZ ++ ".part"]) ∧
    isAncestorOrSelf (["data"] ++ [".uploads"])
      (["data"] ++ [".uploads", uuidZ ++ ".part"]) :=
  c10_uploads_addressable fsData ["data"] uuidZ (by decide) (by decide)
    (by decide) (by decide)

end FileManager
